import Mathlib

/-!
# Verification of the EP-133 time-based generator and sound-compatibility analyzer

Shallow embedding of `src/time_based_generator.py`, `src/sound_compatibility.py`
and the static data of `src/ep_koii_skills/midi_interface.py`.

Modelling conventions:
* Python floats are modelled in `ℚ`.  Threshold comparisons (`k/100` and
  `k/50` against `0.33`, `0.3`, …; component scores against the rating bands)
  are taken on the exact decimals: every comparand is at least 0.0025 away
  from its threshold, far beyond binary64 rounding error, so the exact
  comparison agrees with the program's float comparison at every reachable
  input.  The reported `overall_score`, by contrast, is genuinely sensitive
  to double rounding at half-cent sums, so it is computed through an explicit
  binary64 model (`fl`, `overallFloat`): each literal, product and sum is
  rounded to the nearest 53-bit significand value, and Python's
  `round(x, 2)` is the correctly rounded two-digit decimal of the resulting
  dyadic rational.
* The process-wide PRNG (`random`) is modelled as a state `PRNGState` holding
  an abstract oracle (two streams indexed by the number of draws made so far)
  together with a draw counter.  `random.seed(s)` replaces the whole state by
  a fresh state derived from the seed; `random.random()`, `random.randint` and
  `random.choice` each consume exactly one draw, mirroring the call order of
  the source line by line.
* Python dictionaries whose branches omit keys are modelled with `Option`
  fields; reading a missing key (`d['score']` raising `KeyError`) is modelled
  by propagating `none`.
-/

set_option maxRecDepth 100000

namespace EpKoii

/-- An abstract source of pseudo-randomness: `q i` is the value returned by the
`i`-th draw when that draw is `random.random()`, and `n i` is the entropy used
by the `i`-th draw when it is `random.randint`/`random.choice`. -/
structure Oracle where
  q : Nat → ℚ
  n : Nat → Nat

/-- A lawful oracle returns `random.random()` values in `[0, 1)`. -/
def Oracle.wf (O : Oracle) : Prop := ∀ i, 0 ≤ O.q i ∧ O.q i < 1

/-- The state of the process-wide PRNG: the stream fixed at the last reseed,
plus how many draws have been consumed since. -/
structure PRNGState where
  oracle : Oracle
  idx : Nat

/-- Advance the PRNG by one consumed draw. -/
def PRNGState.next (g : PRNGState) : PRNGState := ⟨g.oracle, g.idx + 1⟩

/-- Value of `random.random()` at the current state. -/
def PRNGState.randFloat (g : PRNGState) : ℚ := g.oracle.q g.idx

/-- Value of `random.randint(a, b)` at the current state: an integer in
`[a, b]`, both ends inclusive. -/
def PRNGState.randintVal (g : PRNGState) (a b : Nat) : Nat :=
  a + g.oracle.n g.idx % (b + 1 - a)

/-- Value of `random.choice(xs)` at the current state: an element of `xs`. -/
def PRNGState.choiceVal (g : PRNGState) (xs : List Nat) : Nat :=
  xs.getD (g.oracle.n g.idx % xs.length) 0

/-- `random.seed(s)`: the whole PRNG state is rebuilt from the seed alone
(`sd` maps a seed to the stream it determines), discarding all prior state. -/
def seedPRNG (sd : Int → Oracle) (s : Int) : PRNGState := ⟨sd s, 0⟩

/-- One event of a generated pattern: `{'step', 'note', 'velocity', 'sound_id'}`. -/
structure PatternEvent where
  step : Nat
  note : Nat
  velocity : Nat
  soundId : Nat
deriving DecidableEq

/-- `TimeBasedGenerator.bpm`. -/
def bpm : Nat := 120
/-- `TimeBasedGenerator.bars`. -/
def bars : Nat := 4
/-- `TimeBasedGenerator.beats_per_bar`. -/
def beatsPerBar : Nat := 4
/-- `TimeBasedGenerator.subdivisions` (16th notes). -/
def subdivisions : Nat := 4
/-- `steps = self.bars * self.beats_per_bar * self.subdivisions` (= 64). -/
def totalSteps : Nat := bars * beatsPerBar * subdivisions

/-- `TimeBasedGenerator.get_bar_seed`. -/
def getBarSeed (barNumber : Int) : Int := barNumber * 1000

/-- `density = (seed % 100) / 100.0` from `_generate_composition`. -/
def densityOf (seed : Int) : ℚ := ((seed % 100 : Int) : ℚ) / 100

/-- `complexity = (seed % 50) / 50.0` from `_generate_composition`. -/
def complexityOf (seed : Int) : ℚ := ((seed % 50 : Int) : ℚ) / 50

/-- Loop body of `_generate_kick_pattern`, iterating `fuel` remaining steps
starting at `step`.  The strong branch (beats 0 and 2, subdivision 0) draws a
velocity and a sound choice; otherwise `random.random()` is always drawn for
the density test before the `beat_position == 0` conjunct is checked, exactly
as Python evaluates `random.random() < density * 0.3 and beat_position == 0`. -/
def genKickAux (d : ℚ) : Nat → Nat → PRNGState → List PatternEvent × PRNGState
  | 0, _, g => ([], g)
  | fuel + 1, step, g =>
    if (step / subdivisions % beatsPerBar = 0 ∨ step / subdivisions % beatsPerBar = 2)
        ∧ step % subdivisions = 0 then
      let v := g.randintVal 90 127
      let sid := g.next.choiceVal [1, 2, 3, 4, 5]
      let r := genKickAux d fuel (step + 1) g.next.next
      (⟨step, 36, v, sid⟩ :: r.1, r.2)
    else if g.randFloat < d * 0.3 ∧ step % subdivisions = 0 then
      let v := g.next.randintVal 60 90
      let sid := g.next.next.choiceVal [1, 2, 3]
      let r := genKickAux d fuel (step + 1) g.next.next.next
      (⟨step, 36, v, sid⟩ :: r.1, r.2)
    else
      genKickAux d fuel (step + 1) g.next

/-- `TimeBasedGenerator._generate_kick_pattern`. -/
def genKickPattern (d : ℚ) (g : PRNGState) : List PatternEvent × PRNGState :=
  genKickAux d totalSteps 0 g

/-- Loop body of `_generate_snare_pattern`: strong hits on beats 1 and 3, ghost
notes (fixed sound id 100) on subdivision 2 with probability `density * 0.4`. -/
def genSnareAux (d : ℚ) : Nat → Nat → PRNGState → List PatternEvent × PRNGState
  | 0, _, g => ([], g)
  | fuel + 1, step, g =>
    if (step / subdivisions % beatsPerBar = 1 ∨ step / subdivisions % beatsPerBar = 3)
        ∧ step % subdivisions = 0 then
      let v := g.randintVal 85 120
      let sid := g.next.choiceVal [100, 101, 102]
      let r := genSnareAux d fuel (step + 1) g.next.next
      (⟨step, 38, v, sid⟩ :: r.1, r.2)
    else if g.randFloat < d * 0.4 ∧ step % subdivisions = 2 then
      let v := g.next.randintVal 40 70
      let r := genSnareAux d fuel (step + 1) g.next.next
      (⟨step, 38, v, 100⟩ :: r.1, r.2)
    else
      genSnareAux d fuel (step + 1) g.next

/-- `TimeBasedGenerator._generate_snare_pattern`. -/
def genSnarePattern (d : ℚ) (g : PRNGState) : List PatternEvent × PRNGState :=
  genSnareAux d totalSteps 0 g

/-- Hat pattern interval from complexity: quarter notes below `0.33`, eighth
notes below `0.66`, sixteenth notes otherwise. -/
def hatInterval (c : ℚ) : Nat :=
  if c < 0.33 then subdivisions
  else if c < 0.66 then subdivisions / 2
  else 1

/-- Loop body of `_generate_hat_pattern`.  On interval steps the `is_open`
draw is made first, then exactly one velocity `randint`; the sound `choice`
is drawn only when the hat is closed (the open branch uses the literal 218).
Off-interval steps always draw `random.random()` for the accent test. -/
def genHatAux (d : ℚ) (interval : Nat) :
    Nat → Nat → PRNGState → List PatternEvent × PRNGState
  | 0, _, g => ([], g)
  | fuel + 1, step, g =>
    if step % interval = 0 then
      if g.randFloat < 0.2 then
        let v := g.next.randintVal 80 110
        let r := genHatAux d interval fuel (step + 1) g.next.next
        (⟨step, 46, v, 218⟩ :: r.1, r.2)
      else
        let v := g.next.randintVal 70 100
        let sid := g.next.next.choiceVal [200, 201]
        let r := genHatAux d interval fuel (step + 1) g.next.next.next
        (⟨step, 42, v, sid⟩ :: r.1, r.2)
    else if g.randFloat < d * 0.3 then
      let v := g.next.randintVal 50 80
      let sid := g.next.next.choiceVal [200, 201]
      let r := genHatAux d interval fuel (step + 1) g.next.next.next
      (⟨step, 42, v, sid⟩ :: r.1, r.2)
    else
      genHatAux d interval fuel (step + 1) g.next

/-- `TimeBasedGenerator._generate_hat_pattern`. -/
def genHatPattern (d c : ℚ) (g : PRNGState) : List PatternEvent × PRNGState :=
  genHatAux d (hatInterval c) totalSteps 0 g

/-- Loop body of `_generate_percussion_pattern`: each step draws the
probability test; on a hit the velocity `randint` is evaluated first, then the
note `choice`, then the sound `choice` (source order of the dict literal). -/
def genPercAux (c : ℚ) : Nat → Nat → PRNGState → List PatternEvent × PRNGState
  | 0, _, g => ([], g)
  | fuel + 1, step, g =>
    if g.randFloat < c * 0.15 then
      let v := g.next.randintVal 60 100
      let note := g.next.next.choiceVal [39, 54, 56]
      let sid := g.next.next.next.choiceVal [300, 301, 302]
      let r := genPercAux c fuel (step + 1) g.next.next.next.next
      (⟨step, note, v, sid⟩ :: r.1, r.2)
    else
      genPercAux c fuel (step + 1) g.next

/-- `TimeBasedGenerator._generate_percussion_pattern`: returns the empty list
before any draw when `complexity < 0.3`. -/
def genPercPattern (c : ℚ) (g : PRNGState) : List PatternEvent × PRNGState :=
  if c < 0.3 then ([], g) else genPercAux c totalSteps 0 g

/-- `SOUND_LIBRARY` from `ep_koii_skills/midi_interface.py`:
category → list of (sound id, display name). -/
def soundLibrary : List (String × List (Nat × String)) :=
  [("Kicks", [(1, "MICRO KICK"), (2, "NT KICK"), (3, "NT KICK B"),
              (4, "NT KICK C"), (5, "NT KICK D")]),
   ("Snares", [(100, "NT SNARE"), (101, "NT SNARE B"), (102, "NT SNARE C")]),
   ("Cymbals and Hats", [(200, "NT HH CLOSED"), (201, "NT HH CLOSED B"),
                         (218, "NT HH OPEN")]),
   ("Percussion", [(300, "NT CLAP"), (301, "NT CLAP B"), (302, "NT CLAP C")]),
   ("Bass", [(400, "NT BASS"), (401, "S95X ROUND"), (402, "TUBRO BASS")]),
   ("Melodic & Synth", [(500, "BLUE"), (501, "PIANO S95X"), (502, "WURLI CLEAN")])]

/-- All sound ids present in the library. -/
def libraryIds : List Nat :=
  soundLibrary.flatMap (fun c => c.2.map (·.1))

/-- Substring test: `needle in haystack` on Python strings. -/
def containsStr (haystack needle : String) : Bool :=
  let h := haystack.toList
  let ndl := needle.toList
  (List.range (h.length + 1)).any (fun i => ndl.isPrefixOf (h.drop i))

/-- `SoundCompatibilityAnalyzer._extract_family`: first matching pattern wins;
`\s` is modelled as a space (all library names use single spaces) and
`re.IGNORECASE` via upper-casing the name, after which the captured group is
returned upper-cased as in the source. -/
def extractFamily (name : String) : String :=
  let u := name.toUpper
  if u.startsWith "NT " then "NT"
  else if u.startsWith "808 " then "808"
  else if u.startsWith "909 " then "909"
  else if u.startsWith "S95X " then "S95X"
  else if u.startsWith "MICRO " then "MICRO"
  else if u.startsWith "TURBO " then "TURBO"
  else if u.startsWith "TUBRO " then "TUBRO"
  else if u.endsWith " CLEAN" then "CLEAN"
  else if u.startsWith "BLUE" then "BLUE"
  else if u.startsWith "PIANO" then "PIANO"
  else if u.startsWith "WURLI" then "WURLI"
  else "GENERIC"

/-- `SoundCompatibilityAnalyzer._infer_characteristics`: union of the tag sets
of every matching rule, in rule order.  Python's `set` is modelled as a
duplicate-free list in insertion order. -/
def inferCharacteristics (name category : String) : List String :=
  let u := name.toUpper
  let tags :=
    (if containsStr u "NT" then ["natural", "acoustic", "organic"] else []) ++
    (if containsStr u "808" || containsStr u "BASS" then ["deep", "sub", "powerful"] else []) ++
    (if containsStr u "909" then ["classic", "punchy", "electronic"] else []) ++
    (if containsStr u "MICRO" then ["tight", "short", "crisp"] else []) ++
    (if containsStr u "CLEAN" then ["clean", "clear", "polished"] else []) ++
    (if containsStr u "OPEN" then ["sustained", "ringing", "bright"] else []) ++
    (if containsStr u "CLOSED" then ["tight", "short", "controlled"] else []) ++
    (if containsStr u "CLAP" then ["percussive", "sharp", "bright"] else []) ++
    (if containsStr u "S95X" then ["synth", "electronic", "modern"] else []) ++
    (if containsStr u "TURBO" || containsStr u "TUBRO" then ["aggressive", "distorted", "heavy"] else []) ++
    (if containsStr u "PIANO" then ["melodic", "harmonic", "acoustic"] else []) ++
    (if containsStr u "WURLI" then ["vintage", "electric", "warm"] else []) ++
    (if containsStr u "BLUE" then ["smooth", "synth", "pad"] else []) ++
    (if category = "Kicks" then ["low-frequency"] else []) ++
    (if category = "Snares" then ["mid-frequency"] else []) ++
    (if category = "Cymbals and Hats" then ["high-frequency"] else []) ++
    (if category = "Bass" then ["low-frequency", "harmonic"] else []) ++
    (if category = "Melodic & Synth" then ["harmonic", "pitched"] else [])
  tags.dedup

/-- `SoundCompatibilityAnalyzer._infer_timbre`: ordered decision list, default
`"balanced"`. -/
def inferTimbre (name : String) (characteristics : List String) : String :=
  let u := name.toUpper
  if containsStr u "WURLI" || characteristics.contains "natural" then "warm"
  else if containsStr u "CLEAN" || containsStr u "OPEN" || containsStr u "CLAP" then "bright"
  else if containsStr u "BASS" || containsStr u "MICRO" then "dark"
  else if containsStr u "S95X" || containsStr u "BLUE" then "neutral"
  else "balanced"

/-- `SoundProfile` dataclass. -/
structure SoundProfile where
  soundId : Nat
  name : String
  category : String
  family : String
  characteristics : List String
  timbre : String
deriving DecidableEq

/-- `SoundCompatibilityAnalyzer._build_sound_profiles`: one profile per library
entry, keyed by sound id. -/
def soundProfiles : List (Nat × SoundProfile) :=
  soundLibrary.flatMap fun cat =>
    cat.2.map fun s =>
      let family := extractFamily s.2
      let characteristics := inferCharacteristics s.2 cat.1
      (s.1, ⟨s.1, s.2, cat.1, family, characteristics,
             inferTimbre s.2 characteristics⟩)

/-- Whether a sound id resolves to a profile (`sid in self.sound_profiles`). -/
def isKnown (sid : Nat) : Bool := (soundProfiles.lookup sid).isSome

/-- `[self.sound_profiles[sid] for sid in sound_ids if sid in self.sound_profiles]`. -/
def profilesOf (ids : List Nat) : List SoundProfile :=
  ids.filterMap (fun sid => soundProfiles.lookup sid)

/-- Result dictionary of `check_family_compatibility`.  The degenerate branch
returns a dict without `'score'` and `'families'` keys, modelled by `none`. -/
structure FamilyCheck where
  compatible : Bool
  score : Option ℚ
  families : Option (List String)
  reason : String
deriving DecidableEq

/-- Body of `check_family_compatibility` on the filtered profile list. -/
def checkFamilyAux (profiles : List SoundProfile) : FamilyCheck :=
  if profiles.isEmpty then ⟨false, none, none, "No valid sounds"⟩
  else
    let families := (profiles.map (·.family)).dedup
    if families.length = 1 then
      ⟨true, some 1, some families,
       "All sounds from " ++ families.headD "" ++ " family - excellent coherence"⟩
    else if families.contains "NT" ∧ families.length ≤ 2 then
      ⟨true, some 0.85, some families,
       "NT sounds with other families - good compatibility"⟩
    else if families.length ≤ 3 then
      ⟨true, some 0.7, some families,
       "Multiple families - acceptable mix, watch for coherence"⟩
    else
      ⟨false, some 0.4, some families,
       "Too many different sound families - may lack coherence"⟩

/-- `SoundCompatibilityAnalyzer.check_family_compatibility`. -/
def checkFamilyCompatibility (ids : List Nat) : FamilyCheck :=
  checkFamilyAux (profilesOf ids)

/-- Result dictionary of `check_category_balance`. -/
structure BalanceCheck where
  balanced : Bool
  score : Option ℚ
  categories : Option (List (String × Nat))
  reason : String
deriving DecidableEq

/-- `category_counts` built by the loop of `check_category_balance`: counts in
first-occurrence order (Python dict insertion order). -/
def categoryCounts (profiles : List SoundProfile) : List (String × Nat) :=
  let cats := profiles.map (·.category)
  cats.dedup.map (fun c => (c, cats.count c))

/-- Body of `check_category_balance` on the filtered profile list. -/
def checkBalanceAux (profiles : List SoundProfile) : BalanceCheck :=
  if profiles.isEmpty then ⟨false, none, none, "No valid sounds"⟩
  else
    let counts := categoryCounts profiles
    let hasKicks := (profiles.map (·.category)).contains "Kicks"
    let hasSnares := (profiles.map (·.category)).contains "Snares"
    let hasHats := (profiles.map (·.category)).contains "Cymbals and Hats"
    if hasKicks ∧ hasSnares ∧ hasHats then
      ⟨true, some 1, some counts, "Good balance: has essential drum elements"⟩
    else if hasKicks ∧ hasSnares then
      ⟨true, some 0.8, some counts, "Acceptable: has kicks and snares, missing hats"⟩
    else if hasKicks then
      ⟨false, some 0.5, some counts, "Unbalanced: only has kicks, missing snares and hats"⟩
    else
      ⟨false, some 0.3, some counts, "Very unbalanced: missing essential drum elements"⟩

/-- `SoundCompatibilityAnalyzer.check_category_balance`. -/
def checkCategoryBalance (ids : List Nat) : BalanceCheck :=
  checkBalanceAux (profilesOf ids)

/-- Result dictionary of `check_timbre_compatibility`. -/
structure TimbreCheck where
  compatible : Bool
  score : Option ℚ
  timbres : Option (List String)
  reason : String
deriving DecidableEq

/-- Equality of two lists viewed as sets (`timbre_set == {...}`). -/
def eqAsSets (a b : List String) : Bool :=
  a.all (b.contains ·) && b.all (a.contains ·)

/-- Body of `check_timbre_compatibility` on the filtered profile list. -/
def checkTimbreAux (profiles : List SoundProfile) : TimbreCheck :=
  if profiles.isEmpty then ⟨false, none, none, "No valid sounds"⟩
  else
    let timbres := profiles.map (·.timbre)
    let tset := timbres.dedup
    if tset.length = 1 then
      ⟨true, some 0.95, some tset,
       "Uniform " ++ timbres.headD "" ++ " timbre - excellent coherence"⟩
    else if tset.contains "balanced" || tset.contains "neutral" then
      ⟨true, some 0.9, some tset, "Includes balanced timbres - good compatibility"⟩
    else if eqAsSets tset ["warm", "bright"] || eqAsSets tset ["warm", "dark"] then
      ⟨true, some 0.85, some tset, "Complementary timbres - creates nice contrast"⟩
    else if tset.length ≤ 2 then
      ⟨true, some 0.75, some tset, "Mixed timbres - acceptable variety"⟩
    else
      ⟨false, some 0.5, some tset, "Too many different timbres - may sound disjointed"⟩

/-- `SoundCompatibilityAnalyzer.check_timbre_compatibility`. -/
def checkTimbreCompatibility (ids : List Nat) : TimbreCheck :=
  checkTimbreAux (profilesOf ids)

/-- Round a rational to the nearest integer, ties to even.  This is both the
IEEE-754 significand rounding rule (used by `fl` below) and the tie rule of
the correctly-rounded decimal conversion behind Python's `round`. -/
def roundHalfEven (x : ℚ) : ℤ :=
  let f := x.floor
  let r := x - f
  if r < 1 / 2 then f
  else if 1 / 2 < r then f + 1
  else if 2 ∣ f then f else f + 1

/-- The binade of `a`: the largest exponent `e` in `[-32, 31]` with
`2^e ≤ a`.  The bounded scan keeps the definition structurally computable;
the range covers magnitudes in `[2^-32, 2^32)`, far beyond every quantity the
analyzer computes (all its scores and sums lie in `[0.09, 1]`). -/
def floorLog2 (a : ℚ) : ℤ :=
  (List.range 64).foldl
    (fun acc i => if (2 : ℚ) ^ ((i : ℤ) - 32) ≤ a then (i : ℤ) - 32 else acc)
    (-32)

/-- The exact rational value of the IEEE-754 binary64 double nearest to `x`
(53-bit significand, round to nearest, ties to even), for magnitudes within
the scan range of `floorLog2`.  Python's floats are binary64, so this is the
value a Python float literal or arithmetic result denotes. -/
def fl (x : ℚ) : ℚ :=
  if x = 0 then 0
  else
    let a := |x|
    let e := floorLog2 a
    let n := roundHalfEven (a * 2 ^ (52 - e))
    (if x < 0 then -1 else 1) * (n : ℚ) * 2 ^ (e - 52)

/-- The weighted overall sum exactly as CPython evaluates
`family * 0.4 + balance * 0.35 + timbre * 0.25` in binary64 floats: every
literal and score converted to the nearest double, every product and every
(left-associated) sum rounded to the nearest double. -/
def overallFloat (fs bs ts : ℚ) : ℚ :=
  fl (fl (fl (fl fs * fl 0.4) + fl (fl bs * fl 0.35)) + fl (fl ts * fl 0.25))

/-- `round(x, 2)` applied to the exact value `x` of a computed double: the
correctly rounded two-digit decimal of `x` (nearest, ties — which require the
double to sit exactly on a half-cent — to even), reported as the decimal it
denotes. -/
def roundTo2 (x : ℚ) : ℚ := (roundHalfEven (100 * x) : ℚ) / 100

/-- Rating band of `analyze_composition`, applied to the unrounded overall
score. -/
def ratingOf (s : ℚ) : String :=
  if 0.85 ≤ s then "EXCELLENT"
  else if 0.7 ≤ s then "GOOD"
  else if 0.55 ≤ s then "ACCEPTABLE"
  else "NEEDS IMPROVEMENT"

/-- Verdict string of `analyze_composition`, applied to the unrounded overall
score. -/
def verdictOf (s : ℚ) : String :=
  if 0.85 ≤ s then "These sounds will work very well together!"
  else if 0.7 ≤ s then "These sounds should work well together."
  else if 0.55 ≤ s then "These sounds may work, but could use refinement."
  else "Consider adjusting sound selection for better coherence."

/-- Result dictionary of `analyze_composition`. -/
structure Analysis where
  overallScore : ℚ
  rating : String
  verdict : String
  familyAnalysis : FamilyCheck
  balanceAnalysis : BalanceCheck
  timbreAnalysis : TimbreCheck
  soundCount : Nat
deriving DecidableEq

/-- `SoundCompatibilityAnalyzer.analyze_composition`.  The aggregation reads
`check['score']` from each check result; on the degenerate empty-profile
results that key is absent and the read raises `KeyError`, modelled by
returning `none`.

The reported `overall_score` is the weighted sum as the program's double
arithmetic produces it (`overallFloat`), rounded to two decimals — at the
reachable half-cent sums (0.665, 0.735, 0.785, 0.845, 0.855, 0.915) the
double sits on one side of the half-cent and decides the rounding.  The
rating and verdict compare the same sum against 0.85/0.7/0.55; every
reachable component-score combination keeps the sum at least 0.0025 away
from these thresholds, far beyond the ~1e-16 double error, so the comparison
is taken on the exact rational sum, on which it agrees with the program at
every reachable input. -/
def analyzeComposition (ids : List Nat) : Option Analysis :=
  let fc := checkFamilyCompatibility ids
  let bc := checkCategoryBalance ids
  let tc := checkTimbreCompatibility ids
  match fc.score, bc.score, tc.score with
  | some fs, some bs, some ts =>
    let overall := fs * 0.4 + bs * 0.35 + ts * 0.25
    some ⟨roundTo2 (overallFloat fs bs ts), ratingOf overall, verdictOf overall,
          fc, bc, tc, ids.length⟩
  | _, _, _ => none

/-- One curated kit of `_define_sound_kits`: its name and all sound ids of its
lanes, concatenated in the category order `kick, snare, hat, perc, bass,
melodic` used by `find_matching_kit`. -/
structure SoundKit where
  name : String
  ids : List Nat
deriving DecidableEq

/-- `SoundCompatibilityAnalyzer._define_sound_kits`, in definition order. -/
def soundKits : List SoundKit :=
  [⟨"Natural Kit", [2, 3, 4, 5, 100, 101, 102, 200, 201, 218, 300, 301, 302]⟩,
   ⟨"Electronic Kit", [1, 100, 200, 201, 300, 401, 500, 501, 502]⟩,
   ⟨"Hybrid Kit", [1, 2, 3, 100, 101, 200, 201, 218, 300, 301, 400, 401, 501, 502]⟩,
   ⟨"Heavy Kit", [5, 102, 218, 302, 402]⟩]

/-- `overlap = len(set(sound_ids) & set(kit_sounds))`. -/
def kitOverlap (ids : List Nat) (k : SoundKit) : Nat :=
  (ids.dedup.filter (fun sid => k.ids.contains sid)).length

/-- `score = overlap / len(sound_ids) if sound_ids else 0`. -/
def kitScore (ids : List Nat) (k : SoundKit) : ℚ :=
  if ids.isEmpty then 0 else (kitOverlap ids k : ℚ) / ids.length

/-- One iteration of the best-kit loop: `if score > best_score`. -/
def bestStep (best : Option String × ℚ) (kv : String × ℚ) : Option String × ℚ :=
  if best.2 < kv.2 then (some kv.1, kv.2) else best

/-- `SoundCompatibilityAnalyzer.find_matching_kit`. -/
def findMatchingKit (ids : List Nat) : Option String :=
  if (profilesOf ids).isEmpty then none
  else
    let best := (soundKits.map (fun k => (k.name, kitScore ids k))).foldl
      bestStep ((none : Option String), (0 : ℚ))
    if best.2 > 0.3 then best.1 else none

/-- The overlap ratio as the spec words it for a sound-id *set*:
`|sound_ids ∩ kit_sound_ids| / |sound_ids|` (cardinality of the set). -/
def kitScoreSet (ids : List Nat) (k : SoundKit) : ℚ :=
  if ids.dedup.isEmpty then 0 else (kitOverlap ids k : ℚ) / ids.dedup.length

/-- Running maximum of a list of named scores. -/
def foldMax (l : List (String × ℚ)) (s0 : ℚ) : ℚ :=
  l.foldl (fun m kv => max m kv.2) s0

/-- The best overlap ratio over all curated kits. -/
def maxKitScore (ids : List Nat) : ℚ :=
  foldMax (soundKits.map fun k => (k.name, kitScoreSet ids k)) 0

/-- Modelled from the spec's words for `find_matching_kit`: compute each
kit's overlap ratio, return the kit with the highest ratio if that ratio
exceeds 0.30, else none, ties resolving to the first kit reaching the
maximum in kit enumeration order. -/
def findMatchingKitSpec (ids : List Nat) : Option String :=
  if maxKitScore ids > 0.3 then
    ((soundKits.map fun k => (k.name, kitScoreSet ids k)).find?
      (fun kv => kv.2 = maxKitScore ids)).map (·.1)
  else none

/-- Insertion sort on naturals (used for `sorted(unique_sound_ids)`). -/
def insertSorted (x : Nat) : List Nat → List Nat
  | [] => [x]
  | y :: ys => if x ≤ y then x :: y :: ys else y :: insertSorted x ys

/-- `sorted` on a list of naturals. -/
def sortNat (l : List Nat) : List Nat := l.foldr insertSorted []

/-- `SoundCompatibilityAnalyzer.get_sound_summary`.  For known ids the source
takes three arbitrary elements of the characteristics set and sorts them;
Python's set iteration order is unspecified, modelled here as the rule
application order of `inferCharacteristics` followed by the same
slice-then-sort. -/
def getSoundSummary (sid : Nat) : String :=
  match soundProfiles.lookup sid with
  | none => "Unknown sound (ID: " ++ toString sid ++ ")"
  | some p =>
    let charStr := String.intercalate ", "
      ((p.characteristics.take 3).mergeSort (fun a b => decide (a ≤ b)))
    p.name ++ " (" ++ p.family ++ " family, " ++ p.timbre ++ " timbre: " ++ charStr ++ ")"

/-- The four pattern lanes of a composition, in the dict insertion order
`kick, snare, hat, perc`. -/
structure Patterns where
  kick : List PatternEvent
  snare : List PatternEvent
  hat : List PatternEvent
  perc : List PatternEvent
deriving DecidableEq

/-- Result of `TimeBasedGenerator._analyze_sound_compatibility`: either the
"not analyzed" dict for an event-free composition, or the full analysis plus
sound summaries and matching kit.  `keyError` marks the (unreachable from
`generate`) case where `analyze_composition` raises. -/
inductive CompatOutput where
  | notAnalyzed (reason : String)
  | keyError
  | analyzed (analysis : Analysis) (soundsUsed : List (Nat × String))
      (matchingKit : Option String)
deriving DecidableEq

/-- `TimeBasedGenerator._analyze_sound_compatibility`.  `list(set(...))` is
modelled as order-preserving deduplication (the analysis scores depend only on
the underlying set). -/
def analyzeSoundCompatibility (p : Patterns) : CompatOutput :=
  let soundIds := (p.kick ++ p.snare ++ p.hat ++ p.perc).map (·.soundId)
  let unique := soundIds.dedup
  if unique.isEmpty then .notAnalyzed "No sounds in composition"
  else
    match analyzeComposition unique with
    | none => .keyError
    | some a =>
      .analyzed a ((sortNat unique).map (fun sid => (sid, getSoundSummary sid)))
        (findMatchingKit unique)

/-- The composition record assembled by `_generate_composition` (without the
wall-clock `generated_at` metadata field, which is outside the deterministic
core). -/
structure Composition where
  seed : Int
  mode : String
  compBpm : Nat
  compBars : Nat
  density : ℚ
  complexity : ℚ
  patterns : Patterns
  compatibility : CompatOutput
deriving DecidableEq

/-- `TimeBasedGenerator._generate_composition`: reseeds the PRNG from the seed
at entry (discarding the incoming state `g0`), derives density and complexity,
runs the four generators in the fixed order kick → snare → hat → perc on the
single reseeded stream, and analyzes the sound compatibility of the result. -/
def generateComposition (sd : Int → Oracle) (g0 : PRNGState) (seed : Int)
    (mode : String) : Composition :=
  let _ := g0
  let g := seedPRNG sd seed
  let d := densityOf seed
  let c := complexityOf seed
  let kick := genKickPattern d g
  let snare := genSnarePattern d kick.2
  let hat := genHatPattern d c snare.2
  let perc := genPercPattern c hat.2
  let patterns : Patterns := ⟨kick.1, snare.1, hat.1, perc.1⟩
  { seed := seed, mode := mode, compBpm := bpm, compBars := bars,
    density := roundTo2 d, complexity := roundTo2 c,
    patterns := patterns,
    compatibility := analyzeSoundCompatibility patterns }

/-- `TimeBasedGenerator.generate_from_bar` (its own `random.seed` call is
subsumed by the reseed inside `_generate_composition`). -/
def generateFromBar (sd : Int → Oracle) (g0 : PRNGState) (barNumber : Int) :
    Composition :=
  generateComposition sd g0 (getBarSeed barNumber) "bar"

/-- A concrete all-zero oracle, used to instantiate universally quantified
theorems on a specific PRNG. -/
def zeroOracle : Oracle := ⟨fun _ => 0, fun _ => 0⟩

/-- The all-zero oracle is lawful. -/
theorem zeroOracle_wf : zeroOracle.wf := by
  intro i
  constructor
  · exact le_refl 0
  · norm_num [zeroOracle]

/-- C1: Determinism of generation — for every seed and mode, two runs of the
composition generation that differ only in the prior PRNG state (each run
reseeds the PRNG from the seed at entry) produce identical patterns in all
four lanes and identical compatibility output. -/
theorem generation_deterministic (sd : Int → Oracle) (g1 g2 : PRNGState)
    (s : Int) (mode : String) :
    (generateComposition sd g1 s mode).patterns
        = (generateComposition sd g2 s mode).patterns ∧
    (generateComposition sd g1 s mode).compatibility
        = (generateComposition sd g2 s mode).compatibility :=
  ⟨rfl, rfl⟩

/-- C2 (counterexample): on the empty sound-id list, the three degenerate
check results omit the `'score'` key, so the weighted aggregation of
`analyze_composition` raises `KeyError` (modelled as `none`) instead of
computing with component scores 0 as the claim states. -/
theorem empty_input_cex :
    analyzeComposition [] = none ∧ (checkFamilyCompatibility []).score = none :=
  ⟨rfl, rfl⟩

/-- C2 (amended): on the empty sound-id list each of the three checks returns
compatible/balanced = false with reason "No valid sounds" and no score entry;
the aggregation then fails on the missing `'score'` key rather than computing
a degraded score. -/
theorem empty_input_behavior :
    checkFamilyCompatibility [] = ⟨false, none, none, "No valid sounds"⟩ ∧
    checkCategoryBalance [] = ⟨false, none, none, "No valid sounds"⟩ ∧
    checkTimbreCompatibility [] = ⟨false, none, none, "No valid sounds"⟩ ∧
    analyzeComposition [] = none :=
  ⟨rfl, rfl, rfl, rfl⟩

/-- C6: for every integer seed, `density = (seed % 100)/100` and
`complexity = (seed % 50)/50` lie in `[0, 1)`. -/
theorem density_complexity_range (s : Int) :
    0 ≤ densityOf s ∧ densityOf s < 1 ∧ 0 ≤ complexityOf s ∧ complexityOf s < 1 := by
  have h100 : (0 : Int) ≤ s % 100 := Int.emod_nonneg s (by norm_num)
  have h100lt : s % 100 < 100 := Int.emod_lt_of_pos s (by norm_num)
  have h50 : (0 : Int) ≤ s % 50 := Int.emod_nonneg s (by norm_num)
  have h50lt : s % 50 < 50 := Int.emod_lt_of_pos s (by norm_num)
  unfold densityOf complexityOf
  refine ⟨?_, ?_, ?_, ?_⟩
  · exact div_nonneg (by exact_mod_cast h100) (by norm_num)
  · rw [div_lt_one (by norm_num)]
    exact_mod_cast h100lt
  · exact div_nonneg (by exact_mod_cast h50) (by norm_num)
  · rw [div_lt_one (by norm_num)]
    exact_mod_cast h50lt

/-- The rating band function agrees with the documented thresholds on the
(unrounded) score it is applied to. -/
theorem ratingOf_spec (s : ℚ) :
    (ratingOf s = "EXCELLENT" ↔ 0.85 ≤ s) ∧
    (ratingOf s = "GOOD" ↔ 0.7 ≤ s ∧ s < 0.85) ∧
    (ratingOf s = "ACCEPTABLE" ↔ 0.55 ≤ s ∧ s < 0.7) ∧
    (ratingOf s = "NEEDS IMPROVEMENT" ↔ s < 0.55) := by
  have e1 : ("EXCELLENT" : String) ≠ "GOOD" := by decide
  have e2 : ("EXCELLENT" : String) ≠ "ACCEPTABLE" := by decide
  have e3 : ("EXCELLENT" : String) ≠ "NEEDS IMPROVEMENT" := by decide
  have e4 : ("GOOD" : String) ≠ "ACCEPTABLE" := by decide
  have e5 : ("GOOD" : String) ≠ "NEEDS IMPROVEMENT" := by decide
  have e6 : ("ACCEPTABLE" : String) ≠ "NEEDS IMPROVEMENT" := by decide
  unfold ratingOf
  split_ifs with h1 h2 h3 <;>
    refine ⟨?_, ?_, ?_, ?_⟩ <;>
    constructor <;>
    intro hh <;>
    first
      | rfl
      | exact absurd hh e1 | exact absurd hh e2 | exact absurd hh e3
      | exact absurd hh e4 | exact absurd hh e5 | exact absurd hh e6
      | exact absurd hh e1.symm | exact absurd hh e2.symm | exact absurd hh e3.symm
      | exact absurd hh e4.symm | exact absurd hh e5.symm | exact absurd hh e6.symm
      | exact h1 | exact ⟨h2, not_le.mp h1⟩ | exact ⟨h3, not_le.mp h2⟩
      | exact not_le.mp h3
      | (exfalso; first
          | exact absurd hh.1 (by linarith)
          | exact absurd hh.2 (by linarith)
          | linarith [hh.1, hh.2]
          | linarith)

/-- The family score, when present, is one of the four branch constants. -/
theorem familyScore_cases {ids : List Nat} {fs : ℚ}
    (h : (checkFamilyCompatibility ids).score = some fs) :
    fs = 1 ∨ fs = 0.85 ∨ fs = 0.7 ∨ fs = 0.4 := by
  unfold checkFamilyCompatibility checkFamilyAux at h
  simp only [] at h
  split at h
  · exact absurd h (by simp)
  · split at h
    · exact Or.inl (Option.some.inj h).symm
    · split at h
      · exact Or.inr (Or.inl (Option.some.inj h).symm)
      · split at h
        · exact Or.inr (Or.inr (Or.inl (Option.some.inj h).symm))
        · exact Or.inr (Or.inr (Or.inr (Option.some.inj h).symm))

/-- The balance score, when present, is one of the four branch constants. -/
theorem balanceScore_cases {ids : List Nat} {bs : ℚ}
    (h : (checkCategoryBalance ids).score = some bs) :
    bs = 1 ∨ bs = 0.8 ∨ bs = 0.5 ∨ bs = 0.3 := by
  unfold checkCategoryBalance checkBalanceAux at h
  simp only [] at h
  split at h
  · exact absurd h (by simp)
  · split at h
    · exact Or.inl (Option.some.inj h).symm
    · split at h
      · exact Or.inr (Or.inl (Option.some.inj h).symm)
      · split at h
        · exact Or.inr (Or.inr (Or.inl (Option.some.inj h).symm))
        · exact Or.inr (Or.inr (Or.inr (Option.some.inj h).symm))

/-- The timbre score, when present, is one of the five branch constants. -/
theorem timbreScore_cases {ids : List Nat} {ts : ℚ}
    (h : (checkTimbreCompatibility ids).score = some ts) :
    ts = 0.95 ∨ ts = 0.9 ∨ ts = 0.85 ∨ ts = 0.75 ∨ ts = 0.5 := by
  unfold checkTimbreCompatibility checkTimbreAux at h
  simp only [] at h
  split at h
  · exact absurd h (by simp)
  · split at h
    · exact Or.inl (Option.some.inj h).symm
    · split at h
      · exact Or.inr (Or.inl (Option.some.inj h).symm)
      · split at h
        · exact Or.inr (Or.inr (Or.inl (Option.some.inj h).symm))
        · split at h
          · exact Or.inr (Or.inr (Or.inr (Or.inl (Option.some.inj h).symm)))
          · exact Or.inr (Or.inr (Or.inr (Or.inr (Option.some.inj h).symm)))

/-- Over the finitely many possible component-score combinations, the rounded
float-evaluated weighted sum stays in `[0, 1]`. -/
theorem overall_bounds {fs bs ts : ℚ}
    (hf : fs = 1 ∨ fs = 0.85 ∨ fs = 0.7 ∨ fs = 0.4)
    (hb : bs = 1 ∨ bs = 0.8 ∨ bs = 0.5 ∨ bs = 0.3)
    (ht : ts = 0.95 ∨ ts = 0.9 ∨ ts = 0.85 ∨ ts = 0.75 ∨ ts = 0.5) :
    0 ≤ roundTo2 (overallFloat fs bs ts) ∧
    roundTo2 (overallFloat fs bs ts) ≤ 1 := by
  rcases hf with rfl | rfl | rfl | rfl <;>
    rcases hb with rfl | rfl | rfl | rfl <;>
    rcases ht with rfl | rfl | rfl | rfl | rfl <;>
    exact ⟨by with_unfolding_all decide, by with_unfolding_all decide⟩

/-- C3 (counterexample): on `[1, 2, 402, 502]` the unrounded weighted sum is
0.5475, so the code rates "NEEDS IMPROVEMENT", yet the reported (rounded)
`overall_score` is 0.55 — inside the claimed ACCEPTABLE band — so the claimed
equivalence between the rating and the rounded score fails. -/
theorem rating_bands_cex :
    (analyzeComposition [1, 2, 402, 502]).map (fun a => (a.rating, a.overallScore))
        = some ("NEEDS IMPROVEMENT", 0.55) ∧
    ("NEEDS IMPROVEMENT" : String) ≠ "ACCEPTABLE" ∧
    (0.55 : ℚ) ≤ 0.55 ∧ (0.55 : ℚ) < 0.7 :=
  ⟨by with_unfolding_all decide, by decide, by norm_num, by norm_num⟩

/-- C3 (amended): whenever `analyze_composition` returns a result, its rating
bands are applied to the *unrounded* weighted sum
`family*0.4 + balance*0.35 + timbre*0.25` with the documented thresholds
(0.85 / 0.70 / 0.55, exact at the boundaries), while the reported
`overall_score` is the double-evaluated sum rounded to 2 decimals and always
lies in [0, 1]; at a rounding boundary the reported score may fall in a
different band than the rating (see the counterexample). -/
theorem rating_bands (ids : List Nat) (a : Analysis) (fs bs ts : ℚ)
    (h : analyzeComposition ids = some a)
    (hfs : (checkFamilyCompatibility ids).score = some fs)
    (hbs : (checkCategoryBalance ids).score = some bs)
    (hts : (checkTimbreCompatibility ids).score = some ts) :
    (a.rating = "EXCELLENT" ↔ 0.85 ≤ fs * 0.4 + bs * 0.35 + ts * 0.25) ∧
    (a.rating = "GOOD" ↔ 0.7 ≤ fs * 0.4 + bs * 0.35 + ts * 0.25
        ∧ fs * 0.4 + bs * 0.35 + ts * 0.25 < 0.85) ∧
    (a.rating = "ACCEPTABLE" ↔ 0.55 ≤ fs * 0.4 + bs * 0.35 + ts * 0.25
        ∧ fs * 0.4 + bs * 0.35 + ts * 0.25 < 0.7) ∧
    (a.rating = "NEEDS IMPROVEMENT" ↔ fs * 0.4 + bs * 0.35 + ts * 0.25 < 0.55) ∧
    a.overallScore = roundTo2 (overallFloat fs bs ts) ∧
    0 ≤ a.overallScore ∧ a.overallScore ≤ 1 ∧
    ratingOf 0.85 = "EXCELLENT" ∧ ratingOf 0.849 = "GOOD" := by
  unfold analyzeComposition at h
  simp only [] at h
  rw [hfs, hbs, hts] at h
  simp only [] at h
  have ha := (Option.some.inj h).symm
  subst ha
  refine ⟨?_, ?_, ?_, ?_, rfl, ?_, ?_, ?_, ?_⟩
  · exact (ratingOf_spec (fs * 0.4 + bs * 0.35 + ts * 0.25)).1
  · exact (ratingOf_spec (fs * 0.4 + bs * 0.35 + ts * 0.25)).2.1
  · exact (ratingOf_spec (fs * 0.4 + bs * 0.35 + ts * 0.25)).2.2.1
  · exact (ratingOf_spec (fs * 0.4 + bs * 0.35 + ts * 0.25)).2.2.2
  · exact (overall_bounds (familyScore_cases hfs) (balanceScore_cases hbs)
      (timbreScore_cases hts)).1
  · exact (overall_bounds (familyScore_cases hfs) (balanceScore_cases hbs)
      (timbreScore_cases hts)).2
  · with_unfolding_all decide
  · with_unfolding_all decide

/-- C3 (witness): the amended rating-band theorem instantiated on the single
snare `[100]`, whose unrounded score is 0.7425 (rating GOOD, reported 0.74). -/
theorem rating_bands_witness :
    analyzeComposition [100] = some
      ⟨0.74, "GOOD", "These sounds should work well together.",
        ⟨true, some 1, some ["NT"], "All sounds from NT family - excellent coherence"⟩,
        ⟨false, some 0.3, some [("Snares", 1)],
          "Very unbalanced: missing essential drum elements"⟩,
        ⟨true, some 0.95, some ["warm"], "Uniform warm timbre - excellent coherence"⟩,
        1⟩ ∧
    ((Analysis.rating
        ⟨0.74, "GOOD", "These sounds should work well together.",
          ⟨true, some 1, some ["NT"], "All sounds from NT family - excellent coherence"⟩,
          ⟨false, some 0.3, some [("Snares", 1)],
            "Very unbalanced: missing essential drum elements"⟩,
          ⟨true, some 0.95, some ["warm"], "Uniform warm timbre - excellent coherence"⟩,
          1⟩ = "EXCELLENT") ↔ 0.85 ≤ (1 : ℚ) * 0.4 + 0.3 * 0.35 + 0.95 * 0.25) :=
  ⟨by with_unfolding_all decide,
   (rating_bands [100]
      ⟨0.74, "GOOD", "These sounds should work well together.",
        ⟨true, some 1, some ["NT"], "All sounds from NT family - excellent coherence"⟩,
        ⟨false, some 0.3, some [("Snares", 1)],
          "Very unbalanced: missing essential drum elements"⟩,
        ⟨true, some 0.95, some ["warm"], "Uniform warm timbre - excellent coherence"⟩,
        1⟩ 1 0.3 0.95
      (by with_unfolding_all decide) (by with_unfolding_all decide)
      (by with_unfolding_all decide) (by with_unfolding_all decide)).1⟩

/-- `random.choice` on a non-empty list returns one of its elements. -/
theorem choiceVal_mem (g : PRNGState) {xs : List Nat} (hxs : xs ≠ []) :
    g.choiceVal xs ∈ xs := by
  unfold PRNGState.choiceVal
  have hlen : 0 < xs.length := List.length_pos.mpr hxs
  have hm : g.oracle.n g.idx % xs.length < xs.length := Nat.mod_lt _ hlen
  rw [List.getD_eq_getElem?_getD, List.getElem?_eq_getElem hm, Option.getD_some]
  exact List.getElem_mem hm

/-- Every event emitted by the kick loop from position `step` with `fuel`
remaining iterations has its step inside `[step, step + fuel)`. -/
theorem genKickAux_bounds (d : ℚ) :
    ∀ fuel step g, ∀ e ∈ (genKickAux d fuel step g).1,
      step ≤ e.step ∧ e.step < step + fuel := by
  intro fuel
  induction fuel with
  | zero =>
    intro step g e he
    simp [genKickAux] at he
  | succ n ih =>
    intro step g e he
    simp only [genKickAux] at he
    split at he
    · rcases List.mem_cons.mp he with h | h
      · subst h
        exact ⟨le_refl _, by show step < step + (n + 1); omega⟩
      · have h2 := ih (step + 1) _ e h
        omega
    · split at he
      · rcases List.mem_cons.mp he with h | h
        · subst h
          exact ⟨le_refl _, by show step < step + (n + 1); omega⟩
        · have h2 := ih (step + 1) _ e h
          omega
      · have h2 := ih (step + 1) _ e he
        omega

/-- The kick loop never changes the underlying oracle stream. -/
theorem genKickAux_oracle (d : ℚ) :
    ∀ fuel step g, (genKickAux d fuel step g).2.oracle = g.oracle := by
  intro fuel
  induction fuel with
  | zero => intro step g; rfl
  | succ n ih =>
    intro step g
    simp only [genKickAux]
    split
    · exact ih (step + 1) _
    · split
      · exact ih (step + 1) _
      · exact ih (step + 1) _

/-- Every kick event's sound id is drawn from the kick candidate lists. -/
theorem genKickAux_sounds (d : ℚ) :
    ∀ fuel step g, ∀ e ∈ (genKickAux d fuel step g).1,
      e.soundId ∈ ([1, 2, 3, 4, 5] : List Nat) := by
  intro fuel
  induction fuel with
  | zero =>
    intro step g e he
    simp [genKickAux] at he
  | succ n ih =>
    intro step g e he
    simp only [genKickAux] at he
    split at he
    · rcases List.mem_cons.mp he with h | h
      · subst h
        exact choiceVal_mem _ (by simp)
      · exact ih (step + 1) _ e h
    · split at he
      · rcases List.mem_cons.mp he with h | h
        · subst h
          show g.next.next.choiceVal [1, 2, 3] ∈ ([1, 2, 3, 4, 5] : List Nat)
          have hm : g.next.next.choiceVal [1, 2, 3] ∈ ([1, 2, 3] : List Nat) :=
            choiceVal_mem _ (by simp)
          simp only [List.mem_cons] at hm ⊢
          tauto
        · exact ih (step + 1) _ e h
      · exact ih (step + 1) _ e he

/-- Kick events are emitted in strictly increasing step order. -/
theorem genKickAux_pairwise (d : ℚ) :
    ∀ fuel step g, ((genKickAux d fuel step g).1.map (·.step)).Pairwise (· < ·) := by
  intro fuel
  induction fuel with
  | zero => intro step g; simp [genKickAux]
  | succ n ih =>
    intro step g
    simp only [genKickAux]
    split
    · dsimp only
      rw [List.map_cons, List.pairwise_cons]
      refine ⟨?_, ih (step + 1) _⟩
      intro b hb
      obtain ⟨e, he, rfl⟩ := List.mem_map.mp hb
      have h2 := genKickAux_bounds d n (step + 1) _ e he
      show step < e.step
      omega
    · split
      · dsimp only
        rw [List.map_cons, List.pairwise_cons]
        refine ⟨?_, ih (step + 1) _⟩
        intro b hb
        obtain ⟨e, he, rfl⟩ := List.mem_map.mp hb
        have h2 := genKickAux_bounds d n (step + 1) _ e he
        show step < e.step
        omega
      · exact ih (step + 1) _

/-- Step bounds for the snare loop. -/
theorem genSnareAux_bounds (d : ℚ) :
    ∀ fuel step g, ∀ e ∈ (genSnareAux d fuel step g).1,
      step ≤ e.step ∧ e.step < step + fuel := by
  intro fuel
  induction fuel with
  | zero =>
    intro step g e he
    simp [genSnareAux] at he
  | succ n ih =>
    intro step g e he
    simp only [genSnareAux] at he
    split at he
    · rcases List.mem_cons.mp he with h | h
      · subst h
        exact ⟨le_refl _, by show step < step + (n + 1); omega⟩
      · have h2 := ih (step + 1) _ e h
        omega
    · split at he
      · rcases List.mem_cons.mp he with h | h
        · subst h
          exact ⟨le_refl _, by show step < step + (n + 1); omega⟩
        · have h2 := ih (step + 1) _ e h
          omega
      · have h2 := ih (step + 1) _ e he
        omega

/-- The snare loop never changes the underlying oracle stream. -/
theorem genSnareAux_oracle (d : ℚ) :
    ∀ fuel step g, (genSnareAux d fuel step g).2.oracle = g.oracle := by
  intro fuel
  induction fuel with
  | zero => intro step g; rfl
  | succ n ih =>
    intro step g
    simp only [genSnareAux]
    split
    · exact ih (step + 1) _
    · split
      · exact ih (step + 1) _
      · exact ih (step + 1) _

/-- Every snare event's sound id is drawn from the snare candidate lists. -/
theorem genSnareAux_sounds (d : ℚ) :
    ∀ fuel step g, ∀ e ∈ (genSnareAux d fuel step g).1,
      e.soundId ∈ ([100, 101, 102] : List Nat) := by
  intro fuel
  induction fuel with
  | zero =>
    intro step g e he
    simp [genSnareAux] at he
  | succ n ih =>
    intro step g e he
    simp only [genSnareAux] at he
    split at he
    · rcases List.mem_cons.mp he with h | h
      · subst h
        exact choiceVal_mem _ (by simp)
      · exact ih (step + 1) _ e h
    · split at he
      · rcases List.mem_cons.mp he with h | h
        · subst h
          show (100 : Nat) ∈ ([100, 101, 102] : List Nat)
          simp
        · exact ih (step + 1) _ e h
      · exact ih (step + 1) _ e he

/-- Snare events are emitted in strictly increasing step order. -/
theorem genSnareAux_pairwise (d : ℚ) :
    ∀ fuel step g, ((genSnareAux d fuel step g).1.map (·.step)).Pairwise (· < ·) := by
  intro fuel
  induction fuel with
  | zero => intro step g; simp [genSnareAux]
  | succ n ih =>
    intro step g
    simp only [genSnareAux]
    split
    · dsimp only
      rw [List.map_cons, List.pairwise_cons]
      refine ⟨?_, ih (step + 1) _⟩
      intro b hb
      obtain ⟨e, he, rfl⟩ := List.mem_map.mp hb
      have h2 := genSnareAux_bounds d n (step + 1) _ e he
      show step < e.step
      omega
    · split
      · dsimp only
        rw [List.map_cons, List.pairwise_cons]
        refine ⟨?_, ih (step + 1) _⟩
        intro b hb
        obtain ⟨e, he, rfl⟩ := List.mem_map.mp hb
        have h2 := genSnareAux_bounds d n (step + 1) _ e he
        show step < e.step
        omega
      · exact ih (step + 1) _

/-- Step bounds for the hat loop. -/
theorem genHatAux_bounds (d : ℚ) (interval : Nat) :
    ∀ fuel step g, ∀ e ∈ (genHatAux d interval fuel step g).1,
      step ≤ e.step ∧ e.step < step + fuel := by
  intro fuel
  induction fuel with
  | zero =>
    intro step g e he
    simp [genHatAux] at he
  | succ n ih =>
    intro step g e he
    simp only [genHatAux] at he
    split at he
    · split at he
      · rcases List.mem_cons.mp he with h | h
        · subst h
          exact ⟨le_refl _, by show step < step + (n + 1); omega⟩
        · have h2 := ih (step + 1) _ e h
          omega
      · rcases List.mem_cons.mp he with h | h
        · subst h
          exact ⟨le_refl _, by show step < step + (n + 1); omega⟩
        · have h2 := ih (step + 1) _ e h
          omega
    · split at he
      · rcases List.mem_cons.mp he with h | h
        · subst h
          exact ⟨le_refl _, by show step < step + (n + 1); omega⟩
        · have h2 := ih (step + 1) _ e h
          omega
      · have h2 := ih (step + 1) _ e he
        omega

/-- The hat loop never changes the underlying oracle stream. -/
theorem genHatAux_oracle (d : ℚ) (interval : Nat) :
    ∀ fuel step g, (genHatAux d interval fuel step g).2.oracle = g.oracle := by
  intro fuel
  induction fuel with
  | zero => intro step g; rfl
  | succ n ih =>
    intro step g
    simp only [genHatAux]
    split
    · split
      · exact ih (step + 1) _
      · exact ih (step + 1) _
    · split
      · exact ih (step + 1) _
      · exact ih (step + 1) _

/-- Every hat event's sound id is drawn from the hat candidate lists. -/
theorem genHatAux_sounds (d : ℚ) (interval : Nat) :
    ∀ fuel step g, ∀ e ∈ (genHatAux d interval fuel step g).1,
      e.soundId ∈ ([200, 201, 218] : List Nat) := by
  intro fuel
  induction fuel with
  | zero =>
    intro step g e he
    simp [genHatAux] at he
  | succ n ih =>
    intro step g e he
    simp only [genHatAux] at he
    split at he
    · split at he
      · rcases List.mem_cons.mp he with h | h
        · subst h
          show (218 : Nat) ∈ ([200, 201, 218] : List Nat)
          simp
        · exact ih (step + 1) _ e h
      · rcases List.mem_cons.mp he with h | h
        · subst h
          show g.next.next.choiceVal [200, 201] ∈ ([200, 201, 218] : List Nat)
          have hm : g.next.next.choiceVal [200, 201] ∈ ([200, 201] : List Nat) :=
            choiceVal_mem _ (by simp)
          simp only [List.mem_cons] at hm ⊢
          tauto
        · exact ih (step + 1) _ e h
    · split at he
      · rcases List.mem_cons.mp he with h | h
        · subst h
          show g.next.next.choiceVal [200, 201] ∈ ([200, 201, 218] : List Nat)
          have hm : g.next.next.choiceVal [200, 201] ∈ ([200, 201] : List Nat) :=
            choiceVal_mem _ (by simp)
          simp only [List.mem_cons] at hm ⊢
          tauto
        · exact ih (step + 1) _ e h
      · exact ih (step + 1) _ e he

/-- Hat events are emitted in strictly increasing step order. -/
theorem genHatAux_pairwise (d : ℚ) (interval : Nat) :
    ∀ fuel step g, ((genHatAux d interval fuel step g).1.map (·.step)).Pairwise (· < ·) := by
  intro fuel
  induction fuel with
  | zero => intro step g; simp [genHatAux]
  | succ n ih =>
    intro step g
    simp only [genHatAux]
    split
    · split
      · dsimp only
        rw [List.map_cons, List.pairwise_cons]
        refine ⟨?_, ih (step + 1) _⟩
        intro b hb
        obtain ⟨e, he, rfl⟩ := List.mem_map.mp hb
        have h2 := genHatAux_bounds d interval n (step + 1) _ e he
        show step < e.step
        omega
      · dsimp only
        rw [List.map_cons, List.pairwise_cons]
        refine ⟨?_, ih (step + 1) _⟩
        intro b hb
        obtain ⟨e, he, rfl⟩ := List.mem_map.mp hb
        have h2 := genHatAux_bounds d interval n (step + 1) _ e he
        show step < e.step
        omega
    · split
      · dsimp only
        rw [List.map_cons, List.pairwise_cons]
        refine ⟨?_, ih (step + 1) _⟩
        intro b hb
        obtain ⟨e, he, rfl⟩ := List.mem_map.mp hb
        have h2 := genHatAux_bounds d interval n (step + 1) _ e he
        show step < e.step
        omega
      · exact ih (step + 1) _

/-- Step bounds for the percussion loop. -/
theorem genPercAux_bounds (c : ℚ) :
    ∀ fuel step g, ∀ e ∈ (genPercAux c fuel step g).1,
      step ≤ e.step ∧ e.step < step + fuel := by
  intro fuel
  induction fuel with
  | zero =>
    intro step g e he
    simp [genPercAux] at he
  | succ n ih =>
    intro step g e he
    simp only [genPercAux] at he
    split at he
    · rcases List.mem_cons.mp he with h | h
      · subst h
        exact ⟨le_refl _, by show step < step + (n + 1); omega⟩
      · have h2 := ih (step + 1) _ e h
        omega
    · have h2 := ih (step + 1) _ e he
      omega

/-- The percussion loop never changes the underlying oracle stream. -/
theorem genPercAux_oracle (c : ℚ) :
    ∀ fuel step g, (genPercAux c fuel step g).2.oracle = g.oracle := by
  intro fuel
  induction fuel with
  | zero => intro step g; rfl
  | succ n ih =>
    intro step g
    simp only [genPercAux]
    split
    · exact ih (step + 1) _
    · exact ih (step + 1) _

/-- Every percussion event's sound id is drawn from the percussion candidates. -/
theorem genPercAux_sounds (c : ℚ) :
    ∀ fuel step g, ∀ e ∈ (genPercAux c fuel step g).1,
      e.soundId ∈ ([300, 301, 302] : List Nat) := by
  intro fuel
  induction fuel with
  | zero =>
    intro step g e he
    simp [genPercAux] at he
  | succ n ih =>
    intro step g e he
    simp only [genPercAux] at he
    split at he
    · rcases List.mem_cons.mp he with h | h
      · subst h
        exact choiceVal_mem _ (by simp)
      · exact ih (step + 1) _ e h
    · exact ih (step + 1) _ e he

/-- Percussion events are emitted in strictly increasing step order. -/
theorem genPercAux_pairwise (c : ℚ) :
    ∀ fuel step g, ((genPercAux c fuel step g).1.map (·.step)).Pairwise (· < ·) := by
  intro fuel
  induction fuel with
  | zero => intro step g; simp [genPercAux]
  | succ n ih =>
    intro step g
    simp only [genPercAux]
    split
    · dsimp only
      rw [List.map_cons, List.pairwise_cons]
      refine ⟨?_, ih (step + 1) _⟩
      intro b hb
      obtain ⟨e, he, rfl⟩ := List.mem_map.mp hb
      have h2 := genPercAux_bounds c n (step + 1) _ e he
      show step < e.step
      omega
    · exact ih (step + 1) _

/-- With density 0 the kick loop emits exactly the strong on-beat hits (beats
0 and 2, subdivision 0), each with note 36 and velocity in [90, 127]. -/
theorem genKickAux_zero :
    ∀ fuel step g, (∀ i, 0 ≤ g.oracle.q i) →
      ((genKickAux 0 fuel step g).1.map (·.step) =
        (List.range' step fuel).filter
          (fun s => decide ((s / subdivisions % beatsPerBar = 0
              ∨ s / subdivisions % beatsPerBar = 2) ∧ s % subdivisions = 0))) ∧
      ∀ e ∈ (genKickAux 0 fuel step g).1,
        e.note = 36 ∧ 90 ≤ e.velocity ∧ e.velocity ≤ 127 := by
  intro fuel
  induction fuel with
  | zero =>
    intro step g hg
    constructor
    · simp [genKickAux]
    · intro e he
      simp [genKickAux] at he
  | succ n ih =>
    intro step g hg
    have hnot : ¬ (g.randFloat < (0 : ℚ) * 0.3 ∧ step % subdivisions = 0) := by
      rintro ⟨hlt, _⟩
      rw [zero_mul] at hlt
      exact absurd hlt (not_lt.mpr (hg g.idx))
    simp only [genKickAux]
    rw [List.range'_succ step n 1]
    by_cases hc : (step / subdivisions % beatsPerBar = 0
        ∨ step / subdivisions % beatsPerBar = 2) ∧ step % subdivisions = 0
    · rw [if_pos hc]
      obtain ⟨ih1, ih2⟩ := ih (step + 1) g.next.next hg
      constructor
      · dsimp only
        rw [List.map_cons, ih1, List.filter_cons_of_pos (by simpa using hc)]
      · intro e he
        rcases List.mem_cons.mp he with h | h
        · subst h
          refine ⟨rfl, ?_, ?_⟩
          · show 90 ≤ 90 + g.oracle.n g.idx % 38
            omega
          · show 90 + g.oracle.n g.idx % 38 ≤ 127
            have := Nat.mod_lt (g.oracle.n g.idx) (y := 38) (by norm_num)
            omega
        · exact ih2 e h
    · rw [if_neg hc, if_neg hnot]
      obtain ⟨ih1, ih2⟩ := ih (step + 1) g.next hg
      exact ⟨by rw [ih1, List.filter_cons_of_neg (by simpa using hc)], ih2⟩

/-- With density 0 the snare loop emits exactly the strong hits on beats 1 and
3 (no ghost notes), each with note 38 and velocity in [85, 120]. -/
theorem genSnareAux_zero :
    ∀ fuel step g, (∀ i, 0 ≤ g.oracle.q i) →
      ((genSnareAux 0 fuel step g).1.map (·.step) =
        (List.range' step fuel).filter
          (fun s => decide ((s / subdivisions % beatsPerBar = 1
              ∨ s / subdivisions % beatsPerBar = 3) ∧ s % subdivisions = 0))) ∧
      ∀ e ∈ (genSnareAux 0 fuel step g).1,
        e.note = 38 ∧ 85 ≤ e.velocity ∧ e.velocity ≤ 120 := by
  intro fuel
  induction fuel with
  | zero =>
    intro step g hg
    constructor
    · simp [genSnareAux]
    · intro e he
      simp [genSnareAux] at he
  | succ n ih =>
    intro step g hg
    have hnot : ¬ (g.randFloat < (0 : ℚ) * 0.4 ∧ step % subdivisions = 2) := by
      rintro ⟨hlt, _⟩
      rw [zero_mul] at hlt
      exact absurd hlt (not_lt.mpr (hg g.idx))
    simp only [genSnareAux]
    rw [List.range'_succ step n 1]
    by_cases hc : (step / subdivisions % beatsPerBar = 1
        ∨ step / subdivisions % beatsPerBar = 3) ∧ step % subdivisions = 0
    · rw [if_pos hc]
      obtain ⟨ih1, ih2⟩ := ih (step + 1) g.next.next hg
      constructor
      · dsimp only
        rw [List.map_cons, ih1, List.filter_cons_of_pos (by simpa using hc)]
      · intro e he
        rcases List.mem_cons.mp he with h | h
        · subst h
          refine ⟨rfl, ?_, ?_⟩
          · show 85 ≤ 85 + g.oracle.n g.idx % 36
            omega
          · show 85 + g.oracle.n g.idx % 36 ≤ 120
            have := Nat.mod_lt (g.oracle.n g.idx) (y := 36) (by norm_num)
            omega
        · exact ih2 e h
    · rw [if_neg hc, if_neg hnot]
      obtain ⟨ih1, ih2⟩ := ih (step + 1) g.next hg
      exact ⟨by rw [ih1, List.filter_cons_of_neg (by simpa using hc)], ih2⟩

/-- With density 0 the hat loop emits exactly the on-interval hits (no
off-interval accents); every hat event is a closed (note 42) or open (note 46)
hat. -/
theorem genHatAux_zero (interval : Nat) :
    ∀ fuel step g, (∀ i, 0 ≤ g.oracle.q i) →
      ((genHatAux 0 interval fuel step g).1.map (·.step) =
        (List.range' step fuel).filter (fun s => decide (s % interval = 0))) ∧
      ∀ e ∈ (genHatAux 0 interval fuel step g).1, e.note = 42 ∨ e.note = 46 := by
  intro fuel
  induction fuel with
  | zero =>
    intro step g hg
    constructor
    · simp [genHatAux]
    · intro e he
      simp [genHatAux] at he
  | succ n ih =>
    intro step g hg
    have hnot : ¬ (g.randFloat < (0 : ℚ) * 0.3) := by
      rw [zero_mul]
      exact not_lt.mpr (hg g.idx)
    simp only [genHatAux]
    rw [List.range'_succ step n 1]
    by_cases hc : step % interval = 0
    · rw [if_pos hc]
      by_cases ho : g.randFloat < (0.2 : ℚ)
      · rw [if_pos ho]
        obtain ⟨ih1, ih2⟩ := ih (step + 1) g.next.next hg
        constructor
        · dsimp only
          rw [List.map_cons, ih1, List.filter_cons_of_pos (by simpa using hc)]
        · intro e he
          rcases List.mem_cons.mp he with h | h
          · subst h
            exact Or.inr rfl
          · exact ih2 e h
      · rw [if_neg ho]
        obtain ⟨ih1, ih2⟩ := ih (step + 1) g.next.next.next hg
        constructor
        · dsimp only
          rw [List.map_cons, ih1, List.filter_cons_of_pos (by simpa using hc)]
        · intro e he
          rcases List.mem_cons.mp he with h | h
          · subst h
            exact Or.inl rfl
          · exact ih2 e h
    · rw [if_neg hc, if_neg hnot]
      obtain ⟨ih1, ih2⟩ := ih (step + 1) g.next hg
      exact ⟨by rw [ih1, List.filter_cons_of_neg (by simpa using hc)], ih2⟩

/-- With complexity 0 the percussion generator returns no events and leaves
the PRNG untouched. -/
theorem genPercPattern_zero (g : PRNGState) : genPercPattern 0 g = ([], g) := by
  unfold genPercPattern
  rw [if_pos (by norm_num)]

/-- C4: generating from bar 16 uses seed 16000, hence density 0 and
complexity 0; for every lawful PRNG the kick lane then holds exactly the
strong hits on subdivision 0 of beats 0 and 2 of each bar (velocities in
[90,127], no soft variants), the snare lane exactly the strong hits on beats
1 and 3 (velocities in [85,120], no ghost notes), the hat lane exactly the
quarter-note interval hits (closed or open per the 20% draw, no off-interval
accents), the percussion lane is empty, and the total event count is the
fixed number 32. -/
theorem bar16_scenario (sd : Int → Oracle) (g0 : PRNGState)
    (hwf : (sd 16000).wf) :
    getBarSeed 16 = 16000 ∧ densityOf 16000 = 0 ∧ complexityOf 16000 = 0 ∧
    (generateFromBar sd g0 16).patterns.kick.map (·.step)
        = [0, 8, 16, 24, 32, 40, 48, 56] ∧
    (∀ e ∈ (generateFromBar sd g0 16).patterns.kick,
        e.note = 36 ∧ 90 ≤ e.velocity ∧ e.velocity ≤ 127) ∧
    (generateFromBar sd g0 16).patterns.snare.map (·.step)
        = [4, 12, 20, 28, 36, 44, 52, 60] ∧
    (∀ e ∈ (generateFromBar sd g0 16).patterns.snare,
        e.note = 38 ∧ 85 ≤ e.velocity ∧ e.velocity ≤ 120) ∧
    (generateFromBar sd g0 16).patterns.hat.map (·.step)
        = [0, 4, 8, 12, 16, 20, 24, 28, 32, 36, 40, 44, 48, 52, 56, 60] ∧
    (∀ e ∈ (generateFromBar sd g0 16).patterns.hat, e.note = 42 ∨ e.note = 46) ∧
    (generateFromBar sd g0 16).patterns.perc = [] ∧
    (generateFromBar sd g0 16).patterns.kick.length
      + (generateFromBar sd g0 16).patterns.snare.length
      + (generateFromBar sd g0 16).patterns.hat.length
      + (generateFromBar sd g0 16).patterns.perc.length = 32 := by
  have hseed : getBarSeed 16 = 16000 := by norm_num [getBarSeed]
  have hd : densityOf 16000 = 0 := by with_unfolding_all decide
  have hcx : complexityOf 16000 = 0 := by with_unfolding_all decide
  have hq : ∀ i, 0 ≤ (seedPRNG sd 16000).oracle.q i := fun i => (hwf i).1
  have hgen : generateFromBar sd g0 16 = generateComposition sd g0 16000 "bar" := by
    unfold generateFromBar
    rw [hseed]
  have hk0 : (generateComposition sd g0 16000 "bar").patterns.kick
      = (genKickAux (densityOf 16000) totalSteps 0 (seedPRNG sd 16000)).1 := rfl
  have hs0 : (generateComposition sd g0 16000 "bar").patterns.snare
      = (genSnareAux (densityOf 16000) totalSteps 0
          (genKickAux (densityOf 16000) totalSteps 0 (seedPRNG sd 16000)).2).1 := rfl
  have hh0 : (generateComposition sd g0 16000 "bar").patterns.hat
      = (genHatAux (densityOf 16000) (hatInterval (complexityOf 16000)) totalSteps 0
          (genSnareAux (densityOf 16000) totalSteps 0
            (genKickAux (densityOf 16000) totalSteps 0 (seedPRNG sd 16000)).2).2).1 := rfl
  have hp0 : (generateComposition sd g0 16000 "bar").patterns.perc
      = (genPercPattern (complexityOf 16000)
          (genHatAux (densityOf 16000) (hatInterval (complexityOf 16000)) totalSteps 0
            (genSnareAux (densityOf 16000) totalSteps 0
              (genKickAux (densityOf 16000) totalSteps 0 (seedPRNG sd 16000)).2).2).2).1 := rfl
  rw [hd] at hk0 hs0 hh0 hp0
  rw [hcx] at hh0 hp0
  have hint : hatInterval 0 = 4 := by norm_num [hatInterval, subdivisions]
  rw [hint] at hh0 hp0
  have hqk : ∀ i, 0 ≤ ((genKickAux 0 totalSteps 0 (seedPRNG sd 16000)).2).oracle.q i := by
    rw [genKickAux_oracle]
    exact hq
  have hqs : ∀ i, 0 ≤ ((genSnareAux 0 totalSteps 0
      (genKickAux 0 totalSteps 0 (seedPRNG sd 16000)).2).2).oracle.q i := by
    rw [genSnareAux_oracle, genKickAux_oracle]
    exact hq
  obtain ⟨hkmap, hkev⟩ := genKickAux_zero totalSteps 0 (seedPRNG sd 16000) hq
  obtain ⟨hsmap, hsev⟩ := genSnareAux_zero totalSteps 0
    (genKickAux 0 totalSteps 0 (seedPRNG sd 16000)).2 hqk
  obtain ⟨hhmap, hhev⟩ := genHatAux_zero 4 totalSteps 0
    (genSnareAux 0 totalSteps 0 (genKickAux 0 totalSteps 0 (seedPRNG sd 16000)).2).2 hqs
  have hkmap2 : (generateFromBar sd g0 16).patterns.kick.map (·.step)
      = [0, 8, 16, 24, 32, 40, 48, 56] := by
    rw [hgen, hk0, hkmap]
    decide
  have hsmap2 : (generateFromBar sd g0 16).patterns.snare.map (·.step)
      = [4, 12, 20, 28, 36, 44, 52, 60] := by
    rw [hgen, hs0, hsmap]
    decide
  have hhmap2 : (generateFromBar sd g0 16).patterns.hat.map (·.step)
      = [0, 4, 8, 12, 16, 20, 24, 28, 32, 36, 40, 44, 48, 52, 56, 60] := by
    rw [hgen, hh0, hhmap]
    decide
  have hpemp : (generateFromBar sd g0 16).patterns.perc = [] := by
    rw [hgen, hp0, genPercPattern_zero]
  refine ⟨hseed, hd, hcx, hkmap2, ?_, hsmap2, ?_, hhmap2, ?_, hpemp, ?_⟩
  · intro e he
    rw [hgen, hk0] at he
    exact hkev e he
  · intro e he
    rw [hgen, hs0] at he
    exact hsev e he
  · intro e he
    rw [hgen, hh0] at he
    exact hhev e he
  · have lk : (generateFromBar sd g0 16).patterns.kick.length = 8 := by
      rw [← List.length_map (generateFromBar sd g0 16).patterns.kick (·.step), hkmap2]
      rfl
    have ls : (generateFromBar sd g0 16).patterns.snare.length = 8 := by
      rw [← List.length_map (generateFromBar sd g0 16).patterns.snare (·.step), hsmap2]
      rfl
    have lh : (generateFromBar sd g0 16).patterns.hat.length = 16 := by
      rw [← List.length_map (generateFromBar sd g0 16).patterns.hat (·.step), hhmap2]
      rfl
    rw [lk, ls, lh, hpemp]
    rfl

/-- C4 (witness): the bar-16 scenario instantiated on the all-zero oracle. -/
theorem bar16_scenario_witness :
    Oracle.wf zeroOracle ∧ getBarSeed 16 = 16000 :=
  ⟨zeroOracle_wf,
   (bar16_scenario (fun _ => zeroOracle) ⟨zeroOracle, 0⟩ zeroOracle_wf).1⟩

/-- Step bound for the full percussion pattern. -/
theorem genPercPattern_step_lt (c : ℚ) (g : PRNGState) :
    ∀ e ∈ (genPercPattern c g).1, e.step < totalSteps := by
  intro e he
  unfold genPercPattern at he
  split at he
  · simp at he
  · have := genPercAux_bounds c totalSteps 0 g e he
    omega

/-- Sound-id candidates for the full percussion pattern. -/
theorem genPercPattern_sounds (c : ℚ) (g : PRNGState) :
    ∀ e ∈ (genPercPattern c g).1, e.soundId ∈ ([300, 301, 302] : List Nat) := by
  intro e he
  unfold genPercPattern at he
  split at he
  · simp at he
  · exact genPercAux_sounds c totalSteps 0 g e he

/-- Strict step ordering for the full percussion pattern. -/
theorem genPercPattern_pairwise (c : ℚ) (g : PRNGState) :
    ((genPercPattern c g).1.map (·.step)).Pairwise (· < ·) := by
  unfold genPercPattern
  split
  · simp
  · exact genPercAux_pairwise c totalSteps 0 g

/-- C7: every event emitted by any of the four pattern generators, for every
seed and every PRNG stream, has its step inside the fixed grid
`[0, bars * beats_per_bar * subdivisions)`. -/
theorem grid_invariant (sd : Int → Oracle) (g0 : PRNGState) (s : Int)
    (mode : String) (e : PatternEvent)
    (he : e ∈ (generateComposition sd g0 s mode).patterns.kick
        ∨ e ∈ (generateComposition sd g0 s mode).patterns.snare
        ∨ e ∈ (generateComposition sd g0 s mode).patterns.hat
        ∨ e ∈ (generateComposition sd g0 s mode).patterns.perc) :
    e.step < bars * beatsPerBar * subdivisions := by
  show e.step < totalSteps
  rcases he with h | h | h | h
  · have := genKickAux_bounds (densityOf s) totalSteps 0 (seedPRNG sd s) e h
    omega
  · have := genSnareAux_bounds (densityOf s) totalSteps 0
      (genKickPattern (densityOf s) (seedPRNG sd s)).2 e h
    omega
  · have := genHatAux_bounds (densityOf s) (hatInterval (complexityOf s)) totalSteps 0
      (genSnarePattern (densityOf s) (genKickPattern (densityOf s) (seedPRNG sd s)).2).2 e h
    omega
  · exact genPercPattern_step_lt (complexityOf s)
      (genHatPattern (densityOf s) (complexityOf s)
        (genSnarePattern (densityOf s) (genKickPattern (densityOf s) (seedPRNG sd s)).2).2).2 e h

/-- C7 (witness): the grid invariant applied to the first kick event of the
all-zero-oracle run with seed 0. -/
theorem grid_invariant_witness :
    ((⟨0, 36, 90, 1⟩ : PatternEvent) ∈
        (generateComposition (fun _ => zeroOracle) ⟨zeroOracle, 0⟩ 0 "clock").patterns.kick) ∧
    (⟨0, 36, 90, 1⟩ : PatternEvent).step < bars * beatsPerBar * subdivisions :=
  ⟨by with_unfolding_all decide,
   grid_invariant (fun _ => zeroOracle) ⟨zeroOracle, 0⟩ 0 "clock" ⟨0, 36, 90, 1⟩
     (Or.inl (by with_unfolding_all decide))⟩

/-- C9: every sound id carried by any event of any of the four lanes, for
every seed and PRNG stream, exists in the static sound library. -/
theorem library_membership (sd : Int → Oracle) (g0 : PRNGState) (s : Int)
    (mode : String) (e : PatternEvent)
    (he : e ∈ (generateComposition sd g0 s mode).patterns.kick
        ∨ e ∈ (generateComposition sd g0 s mode).patterns.snare
        ∨ e ∈ (generateComposition sd g0 s mode).patterns.hat
        ∨ e ∈ (generateComposition sd g0 s mode).patterns.perc) :
    e.soundId ∈ libraryIds := by
  have hk : ∀ x ∈ ([1, 2, 3, 4, 5] : List Nat), x ∈ libraryIds := by decide
  have hs : ∀ x ∈ ([100, 101, 102] : List Nat), x ∈ libraryIds := by decide
  have hh : ∀ x ∈ ([200, 201, 218] : List Nat), x ∈ libraryIds := by decide
  have hp : ∀ x ∈ ([300, 301, 302] : List Nat), x ∈ libraryIds := by decide
  rcases he with h | h | h | h
  · exact hk _ (genKickAux_sounds (densityOf s) totalSteps 0 (seedPRNG sd s) e h)
  · exact hs _ (genSnareAux_sounds (densityOf s) totalSteps 0
      (genKickPattern (densityOf s) (seedPRNG sd s)).2 e h)
  · exact hh _ (genHatAux_sounds (densityOf s) (hatInterval (complexityOf s)) totalSteps 0
      (genSnarePattern (densityOf s) (genKickPattern (densityOf s) (seedPRNG sd s)).2).2 e h)
  · exact hp _ (genPercPattern_sounds (complexityOf s)
      (genHatPattern (densityOf s) (complexityOf s)
        (genSnarePattern (densityOf s) (genKickPattern (densityOf s) (seedPRNG sd s)).2).2).2 e h)

/-- C9 (witness): library membership applied to the first kick event of the
all-zero-oracle run with seed 0. -/
theorem library_membership_witness :
    ((⟨0, 36, 90, 1⟩ : PatternEvent) ∈
        (generateComposition (fun _ => zeroOracle) ⟨zeroOracle, 0⟩ 0 "clock").patterns.kick) ∧
    (⟨0, 36, 90, 1⟩ : PatternEvent).soundId ∈ libraryIds :=
  ⟨by with_unfolding_all decide,
   library_membership (fun _ => zeroOracle) ⟨zeroOracle, 0⟩ 0 "clock" ⟨0, 36, 90, 1⟩
     (Or.inl (by with_unfolding_all decide))⟩

/-- C10: for every seed and PRNG stream, each lane's emitted event sequence is
strictly increasing in step, and hence holds at most one event per step. -/
theorem lane_steps_strictly_increasing (sd : Int → Oracle) (g0 : PRNGState)
    (s : Int) (mode : String) :
    ((generateComposition sd g0 s mode).patterns.kick.map (·.step)).Pairwise (· < ·) ∧
    ((generateComposition sd g0 s mode).patterns.snare.map (·.step)).Pairwise (· < ·) ∧
    ((generateComposition sd g0 s mode).patterns.hat.map (·.step)).Pairwise (· < ·) ∧
    ((generateComposition sd g0 s mode).patterns.perc.map (·.step)).Pairwise (· < ·) ∧
    ((generateComposition sd g0 s mode).patterns.kick.map (·.step)).Nodup ∧
    ((generateComposition sd g0 s mode).patterns.snare.map (·.step)).Nodup ∧
    ((generateComposition sd g0 s mode).patterns.hat.map (·.step)).Nodup ∧
    ((generateComposition sd g0 s mode).patterns.perc.map (·.step)).Nodup := by
  have h1 := genKickAux_pairwise (densityOf s) totalSteps 0 (seedPRNG sd s)
  have h2 := genSnareAux_pairwise (densityOf s) totalSteps 0
    (genKickPattern (densityOf s) (seedPRNG sd s)).2
  have h3 := genHatAux_pairwise (densityOf s) (hatInterval (complexityOf s)) totalSteps 0
    (genSnarePattern (densityOf s) (genKickPattern (densityOf s) (seedPRNG sd s)).2).2
  have h4 := genPercPattern_pairwise (complexityOf s)
    (genHatPattern (densityOf s) (complexityOf s)
      (genSnarePattern (densityOf s) (genKickPattern (densityOf s) (seedPRNG sd s)).2).2).2
  exact ⟨h1, h2, h3, h4,
    h1.imp (fun h => Nat.ne_of_lt h),
    h2.imp (fun h => Nat.ne_of_lt h),
    h3.imp (fun h => Nat.ne_of_lt h),
    h4.imp (fun h => Nat.ne_of_lt h)⟩

/-- The strict-improvement best-tracking fold computes the running maximum and
selects the first entry attaining it whenever the maximum improves on the
start value. -/
theorem bestFold_spec :
    ∀ (l : List (String × ℚ)) (b0 : Option String) (s0 : ℚ),
      (l.foldl bestStep (b0, s0)).2 = foldMax l s0 ∧
      s0 ≤ foldMax l s0 ∧
      ((l.foldl bestStep (b0, s0)).2 = s0 → (l.foldl bestStep (b0, s0)).1 = b0) ∧
      (s0 < (l.foldl bestStep (b0, s0)).2 →
        (l.find? (fun kv => kv.2 = (l.foldl bestStep (b0, s0)).2)).map (·.1)
          = (l.foldl bestStep (b0, s0)).1) := by
  intro l
  induction l with
  | nil =>
    intro b0 s0
    exact ⟨rfl, le_refl _, fun _ => rfl, fun hcon => absurd hcon (lt_irrefl s0)⟩
  | cons kv t ih =>
    intro b0 s0
    rcases kv with ⟨k, v⟩
    have hB : foldMax ((k, v) :: t) s0 = foldMax t (max s0 v) := rfl
    by_cases h : s0 < v
    · have hA : ((k, v) :: t).foldl bestStep (b0, s0) = t.foldl bestStep (some k, v) := by
        rw [List.foldl_cons]
        congr 1
        unfold bestStep
        rw [if_pos h]
      obtain ⟨ih1, ih2, ih3, ih4⟩ := ih (some k) v
      have hmax : max s0 v = v := max_eq_right (le_of_lt h)
      refine ⟨?_, ?_, ?_, ?_⟩
      · rw [hA, hB, hmax]
        exact ih1
      · rw [hB, hmax]
        exact le_trans (le_of_lt h) ih2
      · intro hend
        rw [hA] at hend
        exfalso
        rw [ih1] at hend
        exact absurd (hend ▸ ih2) (not_le.mpr h)
      · intro hlt
        rw [hA] at hlt ⊢
        by_cases hv : v = (t.foldl bestStep (some k, v)).2
        · rw [List.find?_cons_of_pos t (by simpa using hv)]
          have hone := ih3 (ih1.trans (by rw [← ih1, ← hv]))
          simp only [Option.map_some']
          exact hone.symm
        · rw [List.find?_cons_of_neg t (by simpa using hv)]
          apply ih4
          have hle : v ≤ (t.foldl bestStep (some k, v)).2 := by
            rw [ih1]
            exact ih2
          exact lt_of_le_of_ne hle hv
    · have hA : ((k, v) :: t).foldl bestStep (b0, s0) = t.foldl bestStep (b0, s0) := by
        rw [List.foldl_cons]
        congr 1
        unfold bestStep
        rw [if_neg h]
      obtain ⟨ih1, ih2, ih3, ih4⟩ := ih b0 s0
      have hmax : max s0 v = s0 := max_eq_left (not_lt.mp h)
      refine ⟨?_, ?_, ?_, ?_⟩
      · rw [hA, hB, hmax]
        exact ih1
      · rw [hB, hmax]
        exact ih2
      · intro hend
        rw [hA] at hend ⊢
        exact ih3 hend
      · intro hlt
        rw [hA] at hlt ⊢
        have hv : ¬ v = (t.foldl bestStep (b0, s0)).2 := by
          intro hv
          have hvs : v ≤ s0 := not_lt.mp h
          rw [hv] at hvs
          exact absurd hlt (not_lt.mpr hvs)
        rw [List.find?_cons_of_neg t (by simpa using hv)]
        exact ih4 hlt

/-- A fold of the running maximum over all-zero scores stays zero. -/
theorem foldMax_all_zero :
    ∀ {l : List (String × ℚ)}, (∀ kv ∈ l, kv.2 = 0) → foldMax l 0 = 0 := by
  intro l
  induction l with
  | nil => intro _; rfl
  | cons kv t ih =>
    intro h
    have h0 : kv.2 = 0 := h kv (List.mem_cons_self kv t)
    show List.foldl (fun m kv => max m kv.2) (max 0 kv.2) t = 0
    rw [h0, max_self]
    exact ih (fun x hx => h x (List.mem_cons_of_mem _ hx))

/-- Every sound id of every curated kit resolves to a library profile. -/
theorem kit_ids_known : ∀ k ∈ soundKits, ∀ sid ∈ k.ids, isKnown sid = true := by
  decide

/-- If no input id resolves to a profile, every kit's overlap score is 0. -/
theorem kitScore_zero_of_no_profiles {ids : List Nat}
    (hp : profilesOf ids = []) {k : SoundKit} (hk : k ∈ soundKits) :
    kitScore ids k = 0 := by
  have hnone : ∀ sid ∈ ids, soundProfiles.lookup sid = none :=
    List.filterMap_eq_nil.mp hp
  have hov : kitOverlap ids k = 0 := by
    unfold kitOverlap
    rw [List.length_eq_zero, List.filter_eq_nil]
    intro a ha
    have hmem : a ∈ ids := List.mem_dedup.mp ha
    intro hac
    have hak : a ∈ k.ids := List.elem_iff.mp hac
    have hknown : isKnown a = true := kit_ids_known k hk a hak
    unfold isKnown at hknown
    rw [hnone a hmem] at hknown
    simp at hknown
  unfold kitScore
  split
  · rfl
  · rw [hov]
    simp

/-- Under a duplicate-free input the spec-side ratio agrees with the code's. -/
theorem kitScoreSet_eq_kitScore {ids : List Nat} (h : ids.Nodup) (k : SoundKit) :
    kitScoreSet ids k = kitScore ids k := by
  unfold kitScoreSet kitScore
  rw [List.dedup_eq_self.mpr h]

/-- C5: `find_matching_kit` refines the spec's description — it returns the
first kit attaining the maximal overlap ratio `|ids ∩ kit| / |ids|` when that
ratio exceeds 0.30 and none otherwise; a set with zero overlap with every kit
yields no kit; each kit's full id list is matched to that kit with ratio 1. -/
theorem kit_matching (ids : List Nat) (h : ids.Nodup) :
    findMatchingKit ids = findMatchingKitSpec ids ∧
    ((∀ k ∈ soundKits, kitOverlap ids k = 0) → findMatchingKit ids = none) ∧
    (∀ k ∈ soundKits, findMatchingKit k.ids = some k.name ∧ kitScore k.ids k = 1) := by
  have hmapeq : (soundKits.map fun k => (k.name, kitScoreSet ids k))
      = (soundKits.map fun k => (k.name, kitScore ids k)) :=
    List.map_congr_left (fun k _ => by rw [kitScoreSet_eq_kitScore h])
  have hmk : maxKitScore ids
      = foldMax (soundKits.map fun k => (k.name, kitScore ids k)) 0 := by
    unfold maxKitScore
    rw [hmapeq]
  obtain ⟨f1, f2, f3, f4⟩ :=
    bestFold_spec (soundKits.map fun k => (k.name, kitScore ids k)) none 0
  have hzero_case : ∀ (hz : ∀ k ∈ soundKits, kitScore ids k = 0),
      maxKitScore ids = 0 := by
    intro hz
    rw [hmk]
    apply foldMax_all_zero
    intro kv hkv
    obtain ⟨k, hk, rfl⟩ := List.mem_map.mp hkv
    exact hz k hk
  have hrefine : findMatchingKit ids = findMatchingKitSpec ids := by
    by_cases hp : (profilesOf ids).isEmpty
    · have hpnil : profilesOf ids = [] := List.isEmpty_iff.mp hp
      have hM : maxKitScore ids = 0 :=
        hzero_case (fun k hk => kitScore_zero_of_no_profiles hpnil hk)
      unfold findMatchingKit findMatchingKitSpec
      rw [if_pos hp, hM, if_neg (by norm_num)]
    · have hM2 : maxKitScore ids
          = ((soundKits.map fun k => (k.name, kitScore ids k)).foldl
              bestStep (none, 0)).2 :=
        hmk.trans f1.symm
      unfold findMatchingKit findMatchingKitSpec
      rw [if_neg hp, hM2, hmapeq]
      by_cases hgt : ((soundKits.map fun k => (k.name, kitScore ids k)).foldl
          bestStep (none, 0)).2 > 0.3
      · rw [if_pos hgt, if_pos hgt]
        exact (f4 (lt_trans (by norm_num) hgt)).symm
      · rw [if_neg hgt, if_neg hgt]
  refine ⟨hrefine, ?_, ?_⟩
  · intro hov
    have hz : ∀ k ∈ soundKits, kitScore ids k = 0 := by
      intro k hk
      unfold kitScore
      split
      · rfl
      · rw [hov k hk]
        simp
    have hM : maxKitScore ids = 0 := hzero_case hz
    rw [hrefine]
    unfold findMatchingKitSpec
    rw [hM, if_neg (by norm_num)]
  · with_unfolding_all decide

/-- C5 (witness): the kit-matching characterization instantiated on the
duplicate-free input `[2]`. -/
theorem kit_matching_witness :
    ([2] : List Nat).Nodup ∧ findMatchingKit [2] = findMatchingKitSpec [2] :=
  ⟨by decide, (kit_matching [2] (by decide)).1⟩

/-- Deduplication commutes with filtering. -/
theorem filter_dedup_comm {α : Type} [DecidableEq α] (p : α → Bool) :
    ∀ l : List α, (l.filter p).dedup = l.dedup.filter p := by
  intro l
  induction l with
  | nil => rfl
  | cons x xs ih =>
    by_cases hx : p x
    · rw [List.filter_cons_of_pos hx]
      by_cases hmem : x ∈ xs
      · rw [List.dedup_cons_of_mem (by rw [List.mem_filter]; exact ⟨hmem, hx⟩),
          List.dedup_cons_of_mem hmem]
        exact ih
      · rw [List.dedup_cons_of_not_mem (fun hc => hmem (List.mem_filter.mp hc).1),
          List.dedup_cons_of_not_mem hmem, List.filter_cons_of_pos hx, ih]
    · rw [List.filter_cons_of_neg hx]
      by_cases hmem : x ∈ xs
      · rw [List.dedup_cons_of_mem hmem]
        exact ih
      · rw [List.dedup_cons_of_not_mem hmem, List.filter_cons_of_neg hx]
        exact ih

/-- Filtering out the unresolvable ids does not change the profile list. -/
theorem profilesOf_filter :
    ∀ ids : List Nat,
      profilesOf (ids.filter (fun sid => isKnown sid)) = profilesOf ids := by
  intro ids
  induction ids with
  | nil => rfl
  | cons x xs ih =>
    by_cases hx : isKnown x
    · rw [List.filter_cons_of_pos (by simpa using hx)]
      unfold profilesOf at ih ⊢
      rw [List.filterMap_cons, List.filterMap_cons]
      cases hlook : soundProfiles.lookup x with
      | none => simpa using ih
      | some p => simpa using ih
    · rw [List.filter_cons_of_neg (by simpa using hx)]
      unfold profilesOf at ih ⊢
      rw [List.filterMap_cons]
      have hnone : soundProfiles.lookup x = none := by
        unfold isKnown at hx
        exact Option.not_isSome_iff_eq_none.mp (by simpa using hx)
      rw [hnone]
      exact ih

/-- Unresolvable ids do not contribute to the overlap with any curated kit. -/
theorem kitOverlap_filter (ids : List Nat) {k : SoundKit} (hk : k ∈ soundKits) :
    kitOverlap (ids.filter (fun sid => isKnown sid)) k = kitOverlap ids k := by
  unfold kitOverlap
  rw [filter_dedup_comm, List.filter_filter]
  congr 1
  apply List.filter_congr
  intro a _
  cases hca : k.ids.contains a with
  | true =>
    have hknown : isKnown a = true :=
      kit_ids_known k hk a (List.elem_iff.mp hca)
    simp [hknown]
  | false => simp

/-- C8 (counterexample): unknown ids are *not* excluded from kit matching —
they stay in the denominator of the overlap ratio.  With three unknown ids
added to `[2]` the ratio drops from 1.0 to 0.25 and the match disappears. -/
theorem unknown_ids_cex :
    findMatchingKit [2, 9991, 9992, 9993] = none ∧
    [2, 9991, 9992, 9993].filter (fun sid => isKnown sid) = [2] ∧
    findMatchingKit [2] = some "Natural Kit" :=
  ⟨by with_unfolding_all decide, by with_unfolding_all decide,
   by with_unfolding_all decide⟩

/-- C8 (amended): ids absent from the library are excluded from the family,
balance and timbre computations and never raise (only resolvable ids
contribute); for kit matching they are excluded from the overlap numerator
but remain in the denominator (the input length), so the kit-matching result
depends only on the resolvable ids together with the input length; summaries
of unknown ids are a placeholder naming the id. -/
theorem unknown_ids_excluded (ids ids2 : List Nat)
    (hfk : ids.filter (fun sid => isKnown sid) = ids2.filter (fun sid => isKnown sid))
    (hlen : ids.length = ids2.length) :
    checkFamilyCompatibility ids
        = checkFamilyCompatibility (ids.filter (fun sid => isKnown sid)) ∧
    checkCategoryBalance ids
        = checkCategoryBalance (ids.filter (fun sid => isKnown sid)) ∧
    checkTimbreCompatibility ids
        = checkTimbreCompatibility (ids.filter (fun sid => isKnown sid)) ∧
    findMatchingKit ids = findMatchingKit ids2 ∧
    (∀ sid : Nat, isKnown sid = false →
      getSoundSummary sid = "Unknown sound (ID: " ++ toString sid ++ ")") := by
  refine ⟨?_, ?_, ?_, ?_, ?_⟩
  · unfold checkFamilyCompatibility
    rw [profilesOf_filter]
  · unfold checkCategoryBalance
    rw [profilesOf_filter]
  · unfold checkTimbreCompatibility
    rw [profilesOf_filter]
  · have hprof : profilesOf ids = profilesOf ids2 := by
      rw [← profilesOf_filter ids, ← profilesOf_filter ids2, hfk]
    have hov : ∀ k ∈ soundKits, kitOverlap ids k = kitOverlap ids2 k := by
      intro k hk
      rw [← kitOverlap_filter ids hk, ← kitOverlap_filter ids2 hk, hfk]
    have hsc : ∀ k ∈ soundKits, kitScore ids k = kitScore ids2 k := by
      intro k hk
      unfold kitScore
      have hemp : ids.isEmpty = ids2.isEmpty := by
        cases ids with
        | nil =>
          cases ids2 with
          | nil => rfl
          | cons b bs => simp at hlen
        | cons a as =>
          cases ids2 with
          | nil => simp at hlen
          | cons b bs => rfl
      rw [hemp, hov k hk, hlen]
    have hmap2 : (soundKits.map fun k => (k.name, kitScore ids k))
        = (soundKits.map fun k => (k.name, kitScore ids2 k)) :=
      List.map_congr_left (fun k hk => by rw [hsc k hk])
    unfold findMatchingKit
    rw [hprof, hmap2]
  · intro sid hsid
    unfold getSoundSummary
    have hnone : soundProfiles.lookup sid = none := by
      unfold isKnown at hsid
      exact Option.not_isSome_iff_eq_none.mp (by simp [hsid])
    rw [hnone]

/-- C8 (witness): the exclusion theorem applied to `[2, 9991]` against `[2, 7]`
(same resolvable ids, same length). -/
theorem unknown_ids_excluded_witness :
    ([2, 9991] : List Nat).filter (fun sid => isKnown sid)
        = ([2, 7] : List Nat).filter (fun sid => isKnown sid) ∧
    ([2, 9991] : List Nat).length = ([2, 7] : List Nat).length ∧
    findMatchingKit [2, 9991] = findMatchingKit [2, 7] :=
  ⟨by decide, by decide,
   (unknown_ids_excluded [2, 9991] [2, 7] (by decide) (by decide)).2.2.2.1⟩

end EpKoii
